import Mathlib

/-!
# FastPin: a shallow embedding of `src/FastPin.h`

`FastPin` caches, for one Arduino pin, the bit mask of the pin and the addresses
of the input and output register of its port, and then reads and writes the pin
through these cached values.

Conventions of the embedding.

* A `byte` is a natural number; where the C++ code stores into a `byte` the value
  is reduced by `toByte` (modulo 256).
* The operands of `&`, `|` and `~` are promoted to `int` in C++.  The embedding
  follows that: the operators are `Int.land`, `Int.lor` and `Int.not` on `Int`.
* Memory-mapped registers live in `Mem`, a map from addresses to bytes.
* Every member function is a function on `Machine`, the pair of the object and
  the memory; a member function with a result returns the result and the machine.
* `Arduino.h` is not part of the repository: its constants and pin tables are the
  fields of `Platform`, a parameter of everything that uses them.
-/

/-- The memory-mapped registers: the byte stored at every address. -/
abbrev Mem := Nat → Nat

/-- Store through a `volatile byte *`: `*addr = val`. -/
def Mem.store (mem : Mem) (addr val : Nat) : Mem :=
  fun a => if a = addr then val else mem a

/-- Conversion of an `int` to `byte` (the value modulo 256). -/
def toByte (x : Int) : Nat := (x % 256).toNat

/-- The names `FastPin.h` takes from `Arduino.h`: the level constants, the
`OUTPUT` mode, the `NOT_A_PIN` sentinel and the four pin/port lookups. -/
structure Platform where
  /-- The level constant `HIGH`. -/
  HIGH : Nat
  /-- The level constant `LOW`. -/
  LOW : Nat
  /-- The pin mode `OUTPUT`. -/
  OUTPUT : Nat
  /-- The sentinel `NOT_A_PIN`. -/
  NOT_A_PIN : Nat
  /-- The lookup `digitalPinToPort(pin)`. -/
  digitalPinToPort : Nat → Nat
  /-- The lookup `digitalPinToBitMask(pin)`. -/
  digitalPinToBitMask : Nat → Nat
  /-- The lookup `portInputRegister(port)`: an address. -/
  portInputRegister : Nat → Nat
  /-- The lookup `portOutputRegister(port)`: an address. -/
  portOutputRegister : Nat → Nat

/-- The private fields of `class FastPin`. -/
structure FastPin where
  /-- The Arduino pin number (`byte m_pin`). -/
  m_pin : Nat
  /-- The bit mask (`byte m_bit`). -/
  m_bit : Nat
  /-- The input port (`volatile byte *m_in`), an address. -/
  m_in : Nat
  /-- The output port (`volatile byte *m_out`), an address. -/
  m_out : Nat
deriving DecidableEq, Repr

/-- The state a member function runs in: the object and the registers. -/
structure Machine where
  /-- The object the member function is called on. -/
  self : FastPin
  /-- The memory-mapped registers. -/
  mem : Mem

namespace FastPin

/-- The C++ expression `*m_in & m_bit`, an `int`. -/
def inputBits (s : Machine) : Int :=
  Int.land (s.mem s.self.m_in : Int) (s.self.m_bit : Int)

/-- Member `byte read() const`: `if (*m_in & m_bit) return HIGH; else return LOW;`. -/
def read (P : Platform) (s : Machine) : Nat × Machine :=
  if inputBits s ≠ 0 then (P.HIGH, s) else (P.LOW, s)

/-- Member `bool isLow() const`: `return (*m_in & m_bit) == 0;`. -/
def isLow (s : Machine) : Bool × Machine :=
  (decide (inputBits s = 0), s)

/-- Member `bool isHigh() const`: `return (*m_in & m_bit) != 0;`. -/
def isHigh (s : Machine) : Bool × Machine :=
  (decide (inputBits s ≠ 0), s)

/-- Member `void set()`: `*m_out |= m_bit;`. -/
def set (s : Machine) : Machine :=
  { s with
    mem := s.mem.store s.self.m_out
      (toByte (Int.lor (s.mem s.self.m_out : Int) (s.self.m_bit : Int))) }

/-- Member `void clear()`: `*m_out &= ~m_bit;`. -/
def clear (s : Machine) : Machine :=
  { s with
    mem := s.mem.store s.self.m_out
      (toByte (Int.land (s.mem s.self.m_out : Int) (Int.not (s.self.m_bit : Int)))) }

/-- Member `void write(byte value)`: `if (value == LOW) clear(); else set();`. -/
def write (P : Platform) (value : Nat) (s : Machine) : Machine :=
  if value = P.LOW then clear s else set s

/-- Member `void pulseHigh()`: `set(); clear();`. -/
def pulseHigh (s : Machine) : Machine := clear (set s)

/-- Member `void pulseLow()`: `clear(); set();`. -/
def pulseLow (s : Machine) : Machine := set (clear s)

/-- The environment drives the input register: the level the pins show at the
moment of a poll is latched into `*m_in`. -/
def sample (s : Machine) (r : Nat) : Machine :=
  { s with mem := s.mem.store s.self.m_in r }

/-- Member `void waitLow()`: `while (isHigh());`, polled against the successive contents
of the input register.  Every evaluation of `isHigh()` reads the next sample.  The
result is the machine at loop exit and the samples not yet read, and `none` when
the loop is still spinning after the last sample given. -/
def waitLow (s : Machine) : List Nat → Option (Machine × List Nat)
  | [] => none
  | r :: rest =>
    let t := isHigh (sample s r)
    if t.1 then waitLow t.2 rest else some (t.2, rest)

/-- Member `void waitHigh()`: `while (isLow());`, polled like `waitLow`. -/
def waitHigh (s : Machine) : List Nat → Option (Machine × List Nat)
  | [] => none
  | r :: rest =>
    let t := isLow (sample s r)
    if t.1 then waitHigh t.2 rest else some (t.2, rest)

/-- Member `void waitRisingEdge()`: `waitLow(); waitHigh();`. -/
def waitRisingEdge (s : Machine) (samples : List Nat) : Option (Machine × List Nat) :=
  match waitLow s samples with
  | none => none
  | some (s1, rest) => waitHigh s1 rest

/-- Member `void waitFallingEdge()`: `waitHigh(); waitLow();`. -/
def waitFallingEdge (s : Machine) (samples : List Nat) : Option (Machine × List Nat) :=
  match waitHigh s samples with
  | none => none
  | some (s1, rest) => waitLow s1 rest

/-- The loop-back of the round-trip property: the pin is bridged to an input, so
the input register shows what the output register holds. -/
def loopBack (s : Machine) : Machine :=
  { s with mem := s.mem.store s.self.m_in (s.mem s.self.m_out) }

/-- The platform routines a constructor calls, `::pinMode` and `::digitalWrite`,
recorded with their arguments. -/
inductive Call where
  | pinMode (pin mode : Nat)
  | digitalWrite (pin value : Nat)
deriving DecidableEq, Repr

/-- Whether a recorded call is a call of `::digitalWrite`. -/
def Call.isDigitalWrite : Call → Bool
  | Call.digitalWrite _ _ => true
  | Call.pinMode _ _ => false

/-- The outcome of a constructor: the object, or `none` when `assert` stopped the
program, and the platform routines called up to that point, in order. -/
structure Built where
  /-- The constructed object; `none` when the assertion failed. -/
  handle : Option FastPin
  /-- The calls of `::pinMode` and `::digitalWrite`, oldest first. -/
  calls : List Call
deriving DecidableEq, Repr

/-- The constructor `FastPin(byte pin)`:
`byte port = digitalPinToPort(pin); assert(port != NOT_A_PIN);` and then the four
assignments.  `port` and `m_bit` are of type `byte`, so what the platform returns
is converted to a byte.  The assertion is active (`NDEBUG` is not defined): when it
fails the program stops and there is no object. -/
def construct (P : Platform) (pin : Nat) : Built :=
  let port := toByte (P.digitalPinToPort pin : Int)
  if port ≠ P.NOT_A_PIN then
    { handle := some
        { m_pin := pin
          m_bit := toByte (P.digitalPinToBitMask pin : Int)
          m_in := P.portInputRegister port
          m_out := P.portOutputRegister port }
      calls := [] }
  else
    { handle := none, calls := [] }

/-- The constructor `FastPin(byte pin, byte mode) : FastPin(pin)` with the body
`::pinMode(pin, mode);`.  The body runs only when the delegated constructor
returned. -/
def constructMode (P : Platform) (pin mode : Nat) : Built :=
  match construct P pin with
  | { handle := some h, calls := calls } =>
    { handle := some h, calls := calls ++ [Call.pinMode pin mode] }
  | { handle := none, calls := calls } => { handle := none, calls := calls }

/-- The constructor `FastPin(byte pin, byte mode, byte value) : FastPin(pin, mode)`
with the body `if (mode == OUTPUT) ::digitalWrite(pin, value);`. -/
def constructModeValue (P : Platform) (pin mode value : Nat) : Built :=
  match constructMode P pin mode with
  | { handle := some h, calls := calls } =>
    if mode = P.OUTPUT then
      { handle := some h, calls := calls ++ [Call.digitalWrite pin value] }
    else
      { handle := some h, calls := calls }
  | { handle := none, calls := calls } => { handle := none, calls := calls }

end FastPin

/-- The complement of a byte within 8 bits: every one of the 8 bits flipped. -/
def not8 (m : Nat) : Nat := m ^^^ 255

/-- The register update of the platform's generic `digitalWrite(pin, val)`, in the
words of the specification: on the output register of the pin's port, clear the
pin's bit when `val == LOW` and set it otherwise.  `bit` is the pin's mask and
`out` the content of the register. -/
def spec_digitalWrite (P : Platform) (bit out val : Nat) : Nat :=
  if val = P.LOW then out &&& not8 bit else out ||| bit

/-- Modelled from the spec: the pin-to-bitmask resolution of the platform
(`digitalPinToBitMask` of `Arduino.h`, which is not among the sources).  The
specification calls its result a bit mask, "a value with exactly one bit set" that
selects the pin within its port register; `pos` is that position in the 8-bit
register. -/
def Platform.bitMaskAt (P : Platform) (pin pos : Nat) : Prop :=
  pos < 8 ∧ P.digitalPinToBitMask pin = 2 ^ pos

instance (P : Platform) (pin pos : Nat) : Decidable (P.bitMaskAt pin pos) :=
  inferInstanceAs (Decidable (pos < 8 ∧ P.digitalPinToBitMask pin = 2 ^ pos))

/-- A sample platform, laid out like the pin map of an ATmega328P board: pins 0-7
on port 4, pins 8-13 on port 2, pins 14-19 on port 3, every other pin on no port.
It serves as the concrete instance at which the theorems are evaluated. -/
def samplePlatform : Platform where
  HIGH := 1
  LOW := 0
  OUTPUT := 1
  NOT_A_PIN := 0
  digitalPinToPort := fun pin =>
    if pin < 8 then 4 else if pin < 14 then 2 else if pin < 20 then 3 else 0
  digitalPinToBitMask := fun pin =>
    if pin < 8 then 2 ^ pin else if pin < 14 then 2 ^ (pin - 8)
    else if pin < 20 then 2 ^ (pin - 14) else 0
  portInputRegister := fun port =>
    if port = 2 then 0x23 else if port = 3 then 0x26 else if port = 4 then 0x29 else 0
  portOutputRegister := fun port =>
    if port = 2 then 0x25 else if port = 3 then 0x28 else if port = 4 then 0x2B else 0

/-- The object for pin 13 of `samplePlatform`: bit 5 of port 2. -/
def samplePin : FastPin :=
  { m_pin := 13, m_bit := 32, m_in := 0x23, m_out := 0x25 }

/-- Registers holding `0xA5` in the input register of port 2, `0x5A` in its
output register and zero elsewhere. -/
def sampleMem : Mem :=
  fun a => if a = 0x23 then 0xA5 else if a = 0x25 then 0x5A else 0

/-- The machine of `samplePin` over `sampleMem`. -/
def sampleMachine : Machine := { self := samplePin, mem := sampleMem }

/-! ## Bit-level lemmas -/

theorem toByte_natCast (n : Nat) : toByte (n : Int) = n % 256 := by
  unfold toByte
  omega

theorem lor_natCast (r m : Nat) : Int.lor (r : Int) (m : Int) = ((r ||| m : Nat) : Int) := rfl

theorem land_natCast (r m : Nat) : Int.land (r : Int) (m : Int) = ((r &&& m : Nat) : Int) := rfl

theorem land_not_natCast (r m : Nat) :
    Int.land (r : Int) (Int.not (m : Int)) = ((Nat.ldiff r m : Nat) : Int) := rfl

theorem testBit_not8 (m : Nat) (hm : m < 256) (i : Nat) :
    (not8 m).testBit i = (decide (i < 8) && !m.testBit i) := by
  unfold not8
  rw [Nat.testBit_xor]
  have h255 : (255 : Nat).testBit i = decide (i < 8) := by
    have := Nat.testBit_two_pow_sub_one 8 i
    simpa using this
  rw [h255]
  by_cases hi : i < 8
  · simp [hi]
  · have : m.testBit i = false := by
      apply Nat.testBit_lt_two_pow
      calc m < 2 ^ 8 := by simpa using hm
        _ ≤ 2 ^ i := Nat.pow_le_pow_right (by decide) (by omega)
    simp [hi, this]

theorem testBit_mod_256 (x i : Nat) :
    (x % 256).testBit i = (decide (i < 8) && x.testBit i) := by
  have h := Nat.testBit_mod_two_pow x 8 i
  simpa using h

theorem testBit_byte_high (x i : Nat) (hx : x < 256) (hi : 8 ≤ i) : x.testBit i = false := by
  apply Nat.testBit_lt_two_pow
  calc x < 2 ^ 8 := by simpa using hx
    _ ≤ 2 ^ i := Nat.pow_le_pow_right (by decide) hi

theorem lor_lt_256 (r m : Nat) (hr : r < 256) (hm : m < 256) : r ||| m < 256 := by
  have h := @Nat.or_lt_two_pow r m 8 (by simpa using hr) (by simpa using hm)
  simpa using h

/-- The byte `set()` stores: `(byte)(r | m)`. -/
theorem set_value (r m : Nat) : toByte (Int.lor (r : Int) (m : Int)) = (r ||| m) % 256 := by
  rw [lor_natCast, toByte_natCast]

/-- The byte `clear()` stores: `(byte)(r & ~m)`. -/
theorem clear_value (r m : Nat) :
    toByte (Int.land (r : Int) (Int.not (m : Int))) = Nat.ldiff r m % 256 := by
  rw [land_not_natCast, toByte_natCast]

theorem testBit_clear_value (r m i : Nat) :
    (Nat.ldiff r m % 256).testBit i = (decide (i < 8) && (r.testBit i && !m.testBit i)) := by
  rw [testBit_mod_256, Nat.testBit_ldiff]

theorem testBit_set_value (r m i : Nat) :
    ((r ||| m) % 256).testBit i = (decide (i < 8) && (r.testBit i || m.testBit i)) := by
  rw [testBit_mod_256, Nat.testBit_or]

/-- On bytes, `(byte)(r & ~m)` is `r` AND the 8-bit complement of `m`. -/
theorem clear_value_eq (r m : Nat) (hr : r < 256) (hm : m < 256) :
    Nat.ldiff r m % 256 = r &&& not8 m := by
  apply Nat.eq_of_testBit_eq
  intro i
  rw [testBit_clear_value, Nat.testBit_and, testBit_not8 m hm]
  by_cases hi : i < 8
  · simp [hi]
  · simp [hi, testBit_byte_high r i hr (by omega)]

/-- On bytes, `(byte)(r | m)` is `r` OR `m`. -/
theorem set_value_eq (r m : Nat) (hr : r < 256) (hm : m < 256) :
    (r ||| m) % 256 = r ||| m :=
  Nat.mod_eq_of_lt (lor_lt_256 r m hr hm)

/-- The `int` tested by `read`, `isLow` and `isHigh` is zero exactly when the
register and the mask share no bit. -/
theorem inputBits_eq_zero_iff (s : Machine) :
    FastPin.inputBits s = 0 ↔ s.mem s.self.m_in &&& s.self.m_bit = 0 := by
  unfold FastPin.inputBits
  rw [land_natCast]
  exact Int.natCast_eq_zero

/-! ## Stores -/

theorem Mem.store_same (mem : Mem) (a v : Nat) : (mem.store a v) a = v := by
  simp [Mem.store]

theorem Mem.store_other (mem : Mem) (a b v : Nat) (h : b ≠ a) : (mem.store a v) b = mem b := by
  simp [Mem.store, h]

theorem Machine.ext_of (s t : Machine) (hself : s.self = t.self) (hmem : ∀ a, s.mem a = t.mem a) :
    s = t := by
  cases s
  cases t
  simp only [Machine.mk.injEq]
  exact ⟨hself, funext hmem⟩

namespace FastPin

theorem set_self (s : Machine) : (set s).self = s.self := rfl

theorem clear_self (s : Machine) : (clear s).self = s.self := rfl

theorem set_mem_out (s : Machine) :
    (set s).mem s.self.m_out = (s.mem s.self.m_out ||| s.self.m_bit) % 256 := by
  simp only [set, Mem.store_same, set_value]

theorem clear_mem_out (s : Machine) :
    (clear s).mem s.self.m_out = Nat.ldiff (s.mem s.self.m_out) s.self.m_bit % 256 := by
  simp only [clear, Mem.store_same, clear_value]

theorem set_mem_other (s : Machine) (a : Nat) (h : a ≠ s.self.m_out) :
    (set s).mem a = s.mem a := by
  simp only [set, Mem.store_other _ _ _ _ h]

theorem clear_mem_other (s : Machine) (a : Nat) (h : a ≠ s.self.m_out) :
    (clear s).mem a = s.mem a := by
  simp only [clear, Mem.store_other _ _ _ _ h]

theorem write_low (P : Platform) (s : Machine) (v : Nat) (h : v = P.LOW) :
    write P v s = clear s := by
  simp [write, h]

theorem write_not_low (P : Platform) (s : Machine) (v : Nat) (h : v ≠ P.LOW) :
    write P v s = set s := by
  simp [write, h]

end FastPin

/-! ## Writing, reading and pulsing -/

namespace FastPin

/-- C1: for every 8-bit content `r` of the output register, every byte mask `m`
and every level `v`, `write(v)` leaves the output register equal to
`r AND (NOT m within 8 bits)` when `v == LOW` and to `r OR m` for every other `v`;
`write(LOW)` is `clear()` and `write(v)` with `v != LOW` is `set()`; the register
is updated exactly as the generic `digitalWrite` updates it; no bit outside `m`
changes, no other register changes and the object is unchanged. -/
theorem write_refines_digitalWrite (P : Platform) (s : Machine) (v : Nat)
    (hr : s.mem s.self.m_out < 256) (hm : s.self.m_bit < 256) :
    (write P v s).mem s.self.m_out
        = (if v = P.LOW then s.mem s.self.m_out &&& not8 s.self.m_bit
           else s.mem s.self.m_out ||| s.self.m_bit)
      ∧ (v = P.LOW → write P v s = clear s)
      ∧ (v ≠ P.LOW → write P v s = set s)
      ∧ (write P v s).mem s.self.m_out
          = spec_digitalWrite P s.self.m_bit (s.mem s.self.m_out) v
      ∧ (∀ i, s.self.m_bit.testBit i = false →
          ((write P v s).mem s.self.m_out).testBit i = (s.mem s.self.m_out).testBit i)
      ∧ (∀ a, a ≠ s.self.m_out → (write P v s).mem a = s.mem a)
      ∧ (write P v s).self = s.self := by
  have hval : (write P v s).mem s.self.m_out
      = (if v = P.LOW then s.mem s.self.m_out &&& not8 s.self.m_bit
         else s.mem s.self.m_out ||| s.self.m_bit) := by
    by_cases h : v = P.LOW
    · rw [write_low P s v h, clear_mem_out, clear_value_eq _ _ hr hm, if_pos h]
    · rw [write_not_low P s v h, set_mem_out, set_value_eq _ _ hr hm, if_neg h]
  refine ⟨hval, write_low P s v, write_not_low P s v, ?_, ?_, ?_, ?_⟩
  · rw [hval]
    rfl
  · intro i hi
    rw [hval]
    by_cases h : v = P.LOW
    · rw [if_pos h, Nat.testBit_and, testBit_not8 _ hm, hi]
      by_cases h8 : i < 8
      · simp [h8]
      · simp [h8, testBit_byte_high _ i hr (by omega)]
    · rw [if_neg h, Nat.testBit_or, hi]
      simp
  · intro a ha
    by_cases h : v = P.LOW
    · rw [write_low P s v h, clear_mem_other s a ha]
    · rw [write_not_low P s v h, set_mem_other s a ha]
  · by_cases h : v = P.LOW
    · rw [write_low P s v h, clear_self]
    · rw [write_not_low P s v h, set_self]

/-- C2: `read()` returns `HIGH` exactly when `r AND m` is non-zero and `LOW`
otherwise, for the content `r` of the input register and the mask `m`; the result
is one of the two level constants; `read() == HIGH` iff `isHigh()` and
`read() == LOW` iff `isLow()`; and `read()` leaves the registers and the object
as they were. -/
theorem read_level (P : Platform) (s : Machine) (hHL : P.HIGH ≠ P.LOW) :
    ((read P s).1 = P.HIGH ↔ s.mem s.self.m_in &&& s.self.m_bit ≠ 0)
      ∧ ((read P s).1 = P.LOW ↔ s.mem s.self.m_in &&& s.self.m_bit = 0)
      ∧ ((read P s).1 = P.HIGH ∨ (read P s).1 = P.LOW)
      ∧ ((read P s).1 = P.HIGH ↔ (isHigh s).1 = true)
      ∧ ((read P s).1 = P.LOW ↔ (isLow s).1 = true)
      ∧ (read P s).2 = s := by
  have hz := inputBits_eq_zero_iff s
  by_cases h : inputBits s = 0
  · have h0 : s.mem s.self.m_in &&& s.self.m_bit = 0 := hz.mp h
    have hrd : read P s = (P.LOW, s) := by simp [read, h]
    simp [hrd, isHigh, isLow, h, h0, Ne.symm hHL]
  · have h0 : s.mem s.self.m_in &&& s.self.m_bit ≠ 0 := fun e => h (hz.mpr e)
    have hrd : read P s = (P.HIGH, s) := by simp [read, h]
    simp [hrd, isHigh, isLow, h, h0, hHL]

/-- C3: on every content of the input register and every mask, `isHigh()` is the
negation of `isLow()`, so exactly one of the two is true. -/
theorem isHigh_eq_not_isLow (s : Machine) :
    (isHigh s).1 = !(isLow s).1
      ∧ (((isHigh s).1 = true ∧ (isLow s).1 = false)
          ∨ ((isHigh s).1 = false ∧ (isLow s).1 = true)) := by
  by_cases h : inputBits s = 0 <;> simp [isHigh, isLow, h]

end FastPin

/-! ## Composed updates of the output register -/

theorem Mem.store_store (mem : Mem) (a v w : Nat) :
    (mem.store a v).store a w = mem.store a w := by
  funext b
  by_cases h : b = a <;> simp [Mem.store, h]

theorem clear_set_value (r m : Nat) :
    Nat.ldiff ((r ||| m) % 256) m % 256 = Nat.ldiff r m % 256 := by
  apply Nat.eq_of_testBit_eq
  intro i
  rw [testBit_clear_value, testBit_clear_value, testBit_set_value]
  generalize decide (i < 8) = b
  generalize r.testBit i = x
  generalize m.testBit i = y
  cases b <;> cases x <;> cases y <;> rfl

theorem set_clear_value (r m : Nat) :
    (Nat.ldiff r m % 256 ||| m) % 256 = (r ||| m) % 256 := by
  apply Nat.eq_of_testBit_eq
  intro i
  rw [testBit_set_value, testBit_set_value, testBit_clear_value]
  generalize decide (i < 8) = b
  generalize r.testBit i = x
  generalize m.testBit i = y
  cases b <;> cases x <;> cases y <;> rfl

theorem set_set_value (r m : Nat) :
    ((r ||| m) % 256 ||| m) % 256 = (r ||| m) % 256 := by
  apply Nat.eq_of_testBit_eq
  intro i
  rw [testBit_set_value, testBit_set_value]
  generalize decide (i < 8) = b
  generalize r.testBit i = x
  generalize m.testBit i = y
  cases b <;> cases x <;> cases y <;> rfl

theorem clear_clear_value (r m : Nat) :
    Nat.ldiff (Nat.ldiff r m % 256) m % 256 = Nat.ldiff r m % 256 := by
  apply Nat.eq_of_testBit_eq
  intro i
  rw [testBit_clear_value, testBit_clear_value]
  generalize decide (i < 8) = b
  generalize r.testBit i = x
  generalize m.testBit i = y
  cases b <;> cases x <;> cases y <;> rfl

/-- After `clear()` the register and the mask share no bit. -/
theorem clear_value_land (r m : Nat) : Nat.ldiff r m % 256 &&& m = 0 := by
  apply Nat.eq_of_testBit_eq
  intro i
  rw [Nat.testBit_and, testBit_clear_value, Nat.zero_testBit]
  generalize decide (i < 8) = b
  generalize r.testBit i = x
  generalize m.testBit i = y
  cases b <;> cases x <;> cases y <;> rfl

/-- After `set()` with a one-bit byte mask the register contains the mask. -/
theorem set_value_land (r k : Nat) (hk : k < 8) : (r ||| 2 ^ k) % 256 &&& 2 ^ k = 2 ^ k := by
  apply Nat.eq_of_testBit_eq
  intro i
  rw [Nat.testBit_and, testBit_set_value, Nat.testBit_two_pow]
  by_cases h : k = i
  · subst h
    simp [hk]
  · simp [h]

theorem two_pow_ne_zero_nat (k : Nat) : (2 : Nat) ^ k ≠ 0 := by positivity

namespace FastPin

theorem set_eq (s : Machine) :
    set s = { self := s.self
              mem := s.mem.store s.self.m_out ((s.mem s.self.m_out ||| s.self.m_bit) % 256) } := by
  simp only [set, set_value]

theorem clear_eq (s : Machine) :
    clear s = { self := s.self
                mem := s.mem.store s.self.m_out
                  (Nat.ldiff (s.mem s.self.m_out) s.self.m_bit % 256) } := by
  simp only [clear, clear_value]

theorem clear_set (s : Machine) : clear (set s) = clear s := by
  rw [clear_eq (set s), set_eq s, clear_eq s]
  simp only [Mem.store_same, Mem.store_store, clear_set_value]

theorem set_clear (s : Machine) : set (clear s) = set s := by
  rw [set_eq (clear s), clear_eq s, set_eq s]
  simp only [Mem.store_same, Mem.store_store, set_clear_value]

theorem set_set (s : Machine) : set (set s) = set s := by
  rw [set_eq (set s), set_eq s]
  simp only [Mem.store_same, Mem.store_store, set_set_value]

theorem clear_clear (s : Machine) : clear (clear s) = clear s := by
  rw [clear_eq (clear s), clear_eq s]
  simp only [Mem.store_same, Mem.store_store, clear_clear_value]

theorem write_write (P : Platform) (v : Nat) (s : Machine) :
    write P v (write P v s) = write P v s := by
  by_cases h : v = P.LOW
  · rw [write_low P s v h, write_low P (clear s) v h, clear_clear]
  · rw [write_not_low P s v h, write_not_low P (set s) v h, set_set]

/-- Reading through the loop-back sees the output register. -/
theorem inputBits_loopBack (t : Machine) :
    inputBits (loopBack t) = ((t.mem t.self.m_out &&& t.self.m_bit : Nat) : Int) := by
  simp only [inputBits, loopBack, Mem.store_same, land_natCast]

theorem read_loopBack_set (P : Platform) (s : Machine) (k : Nat) (hk : k < 8)
    (hm : s.self.m_bit = 2 ^ k) : (read P (loopBack (set s))).1 = P.HIGH := by
  have h : inputBits (loopBack (set s)) ≠ 0 := by
    rw [inputBits_loopBack, set_self, set_mem_out, hm, set_value_land _ k hk]
    exact_mod_cast two_pow_ne_zero_nat k
  simp [read, h]

theorem read_loopBack_clear (P : Platform) (s : Machine) :
    (read P (loopBack (clear s))).1 = P.LOW := by
  have h : inputBits (loopBack (clear s)) = 0 := by
    rw [inputBits_loopBack, clear_self, clear_mem_out, clear_value_land]
    rfl
  simp [read, h]

/-- C4: with the input register looped back from the output register and a mask
of exactly one bit, `write(HIGH)` followed by `read()` returns `HIGH` and
`write(LOW)` followed by `read()` returns `LOW`, from every initial content of the
registers; writing the same level a second time changes neither the registers nor
what `read()` returns. -/
theorem write_read_roundtrip (P : Platform) (s : Machine) (k : Nat) (hk : k < 8)
    (hm : s.self.m_bit = 2 ^ k) (hHL : P.HIGH ≠ P.LOW) :
    (read P (loopBack (write P P.HIGH s))).1 = P.HIGH
      ∧ (read P (loopBack (write P P.LOW s))).1 = P.LOW
      ∧ write P P.HIGH (write P P.HIGH s) = write P P.HIGH s
      ∧ write P P.LOW (write P P.LOW s) = write P P.LOW s
      ∧ (read P (loopBack (write P P.HIGH (write P P.HIGH s)))).1 = P.HIGH
      ∧ (read P (loopBack (write P P.LOW (write P P.LOW s)))).1 = P.LOW := by
  have hH : (read P (loopBack (write P P.HIGH s))).1 = P.HIGH := by
    rw [write_not_low P s P.HIGH hHL]
    exact read_loopBack_set P s k hk hm
  have hL : (read P (loopBack (write P P.LOW s))).1 = P.LOW := by
    rw [write_low P s P.LOW rfl]
    exact read_loopBack_clear P s
  refine ⟨hH, hL, write_write P P.HIGH s, write_write P P.LOW s, ?_, ?_⟩
  · rw [write_write]
    exact hH
  · rw [write_write]
    exact hL

/-- C5: for a mask of exactly one bit and every initial content of the output
register, `pulseHigh()` leaves the register as `clear()` alone would, with the
pin's bit clear, and `pulseLow()` leaves it as `set()` alone would, with the pin's
bit set. -/
theorem pulse_final_state (s : Machine) (k : Nat) (hk : k < 8) (hm : s.self.m_bit = 2 ^ k) :
    pulseHigh s = clear s
      ∧ pulseLow s = set s
      ∧ ((pulseHigh s).mem s.self.m_out).testBit k = false
      ∧ ((pulseLow s).mem s.self.m_out).testBit k = true
      ∧ (pulseHigh s).mem s.self.m_out &&& s.self.m_bit = 0
      ∧ (pulseLow s).mem s.self.m_out &&& s.self.m_bit = s.self.m_bit := by
  have hH : pulseHigh s = clear s := clear_set s
  have hL : pulseLow s = set s := set_clear s
  refine ⟨hH, hL, ?_, ?_, ?_, ?_⟩
  · rw [hH, clear_mem_out, testBit_clear_value, hm, Nat.testBit_two_pow_self]
    simp
  · rw [hL, set_mem_out, testBit_set_value, hm, Nat.testBit_two_pow_self]
    simp [hk]
  · rw [hH, clear_mem_out, clear_value_land]
  · rw [hL, set_mem_out, hm, set_value_land _ k hk]

end FastPin

/-! ## Construction -/

namespace FastPin

theorem construct_calls (P : Platform) (pin : Nat) : (construct P pin).calls = [] := by
  simp only [construct]
  split <;> rfl

/-- The one-argument constructor on a port number that fits a byte. -/
theorem construct_eq (P : Platform) (pin : Nat) (hport : P.digitalPinToPort pin < 256) :
    construct P pin =
      if P.digitalPinToPort pin ≠ P.NOT_A_PIN then
        { handle := some
            { m_pin := pin
              m_bit := P.digitalPinToBitMask pin % 256
              m_in := P.portInputRegister (P.digitalPinToPort pin)
              m_out := P.portOutputRegister (P.digitalPinToPort pin) }
          calls := [] }
      else { handle := none, calls := [] } := by
  simp only [construct, toByte_natCast, Nat.mod_eq_of_lt hport]

theorem constructMode_none (P : Platform) (pin mode : Nat)
    (h : (construct P pin).handle = none) :
    constructMode P pin mode = { handle := none, calls := [] } := by
  have hc := construct_calls P pin
  unfold constructMode
  cases hb : construct P pin with
  | mk handle calls =>
    rw [hb] at h hc
    simp only at h hc
    subst h hc
    rfl

theorem constructMode_some (P : Platform) (pin mode : Nat) (x : FastPin)
    (h : (construct P pin).handle = some x) :
    constructMode P pin mode = { handle := some x, calls := [Call.pinMode pin mode] } := by
  have hc := construct_calls P pin
  unfold constructMode
  cases hb : construct P pin with
  | mk handle calls =>
    rw [hb] at h hc
    simp only at h hc
    subst h hc
    rfl

theorem constructModeValue_none (P : Platform) (pin mode value : Nat)
    (h : (construct P pin).handle = none) :
    constructModeValue P pin mode value = { handle := none, calls := [] } := by
  unfold constructModeValue
  rw [constructMode_none P pin mode h]

theorem constructModeValue_some (P : Platform) (pin mode value : Nat) (x : FastPin)
    (h : (construct P pin).handle = some x) :
    constructModeValue P pin mode value =
      if mode = P.OUTPUT then
        { handle := some x, calls := [Call.pinMode pin mode, Call.digitalWrite pin value] }
      else { handle := some x, calls := [Call.pinMode pin mode] } := by
  unfold constructModeValue
  rw [constructMode_some P pin mode x h]
  rfl

end FastPin

namespace FastPin

/-- C6: construction from a pin `p` stops at the assertion, with no object,
exactly when `digitalPinToPort(p)` is the `NOT_A_PIN` sentinel; for every other
`p` it yields the object with `m_pin = p`, `m_bit = digitalPinToBitMask(p)`,
`m_in = portInputRegister(digitalPinToPort(p))` and
`m_out = portOutputRegister(digitalPinToPort(p))`.  The two- and three-argument
constructors stop on exactly the same pins, and then neither `pinMode` nor
`digitalWrite` has been called. -/
theorem construct_halts_iff (P : Platform) (pin mode value : Nat)
    (hport : P.digitalPinToPort pin < 256) (hmask : P.digitalPinToBitMask pin < 256) :
    ((construct P pin).handle = none ↔ P.digitalPinToPort pin = P.NOT_A_PIN)
      ∧ (P.digitalPinToPort pin ≠ P.NOT_A_PIN →
          (construct P pin).handle = some
            { m_pin := pin
              m_bit := P.digitalPinToBitMask pin
              m_in := P.portInputRegister (P.digitalPinToPort pin)
              m_out := P.portOutputRegister (P.digitalPinToPort pin) })
      ∧ ((constructMode P pin mode).handle = none ↔ P.digitalPinToPort pin = P.NOT_A_PIN)
      ∧ ((constructModeValue P pin mode value).handle = none
          ↔ P.digitalPinToPort pin = P.NOT_A_PIN)
      ∧ (P.digitalPinToPort pin = P.NOT_A_PIN →
          (constructMode P pin mode).calls = []
            ∧ (constructModeValue P pin mode value).calls = []) := by
  have hc := construct_eq P pin hport
  rw [Nat.mod_eq_of_lt hmask] at hc
  by_cases h : P.digitalPinToPort pin = P.NOT_A_PIN
  · have hnone : (construct P pin).handle = none := by
      rw [hc]
      simp [h]
    rw [constructMode_none P pin mode hnone, constructModeValue_none P pin mode value hnone]
    simp [hnone, h]
  · have hsome : (construct P pin).handle = some
          { m_pin := pin
            m_bit := P.digitalPinToBitMask pin
            m_in := P.portInputRegister (P.digitalPinToPort pin)
            m_out := P.portOutputRegister (P.digitalPinToPort pin) } := by
      rw [hc]
      simp [h]
    rw [constructMode_some P pin mode _ hsome]
    rw [constructModeValue_some P pin mode value _ hsome]
    refine ⟨?_, fun _ => hsome, ?_, ?_, fun e => absurd e h⟩
    · simp [hsome, h]
    · simp [h]
    · by_cases hm : mode = P.OUTPUT <;> simp [hm, h]

/-- C8: for a pin accepted by the port resolution, whose mask as given by the
platform selects position `pos` of the 8-bit port register, the object produced by
construction has exactly one bit set in `m_bit`, the bit at `pos`. -/
theorem construct_bitMask_one_bit (P : Platform) (pin pos : Nat)
    (hport : P.digitalPinToPort pin < 256) (hvalid : P.digitalPinToPort pin ≠ P.NOT_A_PIN)
    (hbit : P.bitMaskAt pin pos) :
    ∃ x : FastPin, (construct P pin).handle = some x
      ∧ x.m_bit = 2 ^ pos
      ∧ ∀ i, x.m_bit.testBit i = decide (i = pos) := by
  obtain ⟨hpos, hmask⟩ := hbit
  have hlt : (2 : Nat) ^ pos < 256 := by
    calc (2 : Nat) ^ pos < 2 ^ 8 := Nat.pow_lt_pow_right (by decide) hpos
      _ = 256 := by norm_num
  have hc := construct_eq P pin hport
  rw [if_pos hvalid, hmask, Nat.mod_eq_of_lt hlt] at hc
  refine ⟨_, by rw [hc], rfl, ?_⟩
  intro i
  show (2 ^ pos).testBit i = decide (i = pos)
  rw [Nat.testBit_two_pow]
  by_cases h : pos = i
  · simp [h]
  · have h2 : ¬ i = pos := fun e => h e.symm
    simp [h, h2]

/-- C10: for a pin accepted by the port resolution, the three-argument
constructor calls `pinMode(p, mode)` and then, exactly when `mode == OUTPUT`,
`digitalWrite(p, value)` once; for every other mode it calls no `digitalWrite` and
yields the object and the calls of the two-argument constructor. -/
theorem constructModeValue_calls (P : Platform) (pin mode value : Nat)
    (hport : P.digitalPinToPort pin < 256) (hvalid : P.digitalPinToPort pin ≠ P.NOT_A_PIN) :
    (constructModeValue P pin mode value).handle = (construct P pin).handle
      ∧ (construct P pin).handle ≠ none
      ∧ (constructMode P pin mode).handle = (construct P pin).handle
      ∧ (constructMode P pin mode).calls = [Call.pinMode pin mode]
      ∧ (mode = P.OUTPUT → (constructModeValue P pin mode value).calls
            = [Call.pinMode pin mode, Call.digitalWrite pin value])
      ∧ (mode ≠ P.OUTPUT → (constructModeValue P pin mode value).calls = [Call.pinMode pin mode]
            ∧ constructModeValue P pin mode value = constructMode P pin mode)
      ∧ (((constructModeValue P pin mode value).calls.filter Call.isDigitalWrite).length
          = if mode = P.OUTPUT then 1 else 0) := by
  have hc := construct_eq P pin hport
  rw [if_pos hvalid] at hc
  have hsome : (construct P pin).handle = some
        { m_pin := pin
          m_bit := P.digitalPinToBitMask pin % 256
          m_in := P.portInputRegister (P.digitalPinToPort pin)
          m_out := P.portOutputRegister (P.digitalPinToPort pin) } := by
    rw [hc]
  rw [constructMode_some P pin mode _ hsome, constructModeValue_some P pin mode value _ hsome]
  by_cases hm : mode = P.OUTPUT
  · simp [hm, hsome, Call.isDigitalWrite]
  · simp [hm, hsome, Call.isDigitalWrite]

end FastPin

/-! ## Busy waits -/

namespace FastPin

theorem sample_self (s : Machine) (r : Nat) : (sample s r).self = s.self := rfl

theorem sample_sample (s : Machine) (a b : Nat) : sample (sample s a) b = sample s b := by
  simp only [sample, Mem.store_store]

theorem inputBits_sample (s : Machine) (r : Nat) :
    inputBits (sample s r) = ((r &&& s.self.m_bit : Nat) : Int) := by
  simp only [inputBits, sample, Mem.store_same, land_natCast]

theorem waitLow_cons (s : Machine) (r : Nat) (rest : List Nat) :
    waitLow s (r :: rest) =
      if r &&& s.self.m_bit ≠ 0 then waitLow (sample s r) rest else some (sample s r, rest) := by
  simp only [waitLow, isHigh, inputBits_sample, decide_eq_true_eq, ne_eq, Int.natCast_eq_zero]

theorem waitHigh_cons (s : Machine) (r : Nat) (rest : List Nat) :
    waitHigh s (r :: rest) =
      if r &&& s.self.m_bit = 0 then waitHigh (sample s r) rest else some (sample s r, rest) := by
  simp only [waitHigh, isLow, inputBits_sample, decide_eq_true_eq, Int.natCast_eq_zero]

/-- Function `waitLow` returns at the first low sample. -/
theorem waitLow_append (s : Machine) (hs : List Nat) (l : Nat) (rest : List Nat)
    (hhs : ∀ x ∈ hs, x &&& s.self.m_bit ≠ 0) (hl : l &&& s.self.m_bit = 0) :
    waitLow s (hs ++ l :: rest) = some (sample s l, rest) := by
  induction hs generalizing s with
  | nil =>
    rw [List.nil_append, waitLow_cons, if_neg (not_not.mpr hl)]
  | cons a hs ih =>
    have ha : a &&& s.self.m_bit ≠ 0 := hhs a (List.mem_cons_self a hs)
    rw [List.cons_append, waitLow_cons, if_pos ha]
    rw [ih (sample s a) (fun x hx => hhs x (List.mem_cons_of_mem a hx)) hl, sample_sample]

/-- Function `waitHigh` returns at the first high sample. -/
theorem waitHigh_append (s : Machine) (ls : List Nat) (h : Nat) (rest : List Nat)
    (hls : ∀ x ∈ ls, x &&& s.self.m_bit = 0) (hh : h &&& s.self.m_bit ≠ 0) :
    waitHigh s (ls ++ h :: rest) = some (sample s h, rest) := by
  induction ls generalizing s with
  | nil =>
    rw [List.nil_append, waitHigh_cons, if_neg hh]
  | cons a ls ih =>
    have ha : a &&& s.self.m_bit = 0 := hls a (List.mem_cons_self a ls)
    rw [List.cons_append, waitHigh_cons, if_pos ha]
    rw [ih (sample s a) (fun x hx => hls x (List.mem_cons_of_mem a hx)) hh, sample_sample]

/-- When `waitLow` returns, it has read a run of high samples and one low sample. -/
theorem waitLow_some (s : Machine) (samples rest : List Nat) (t : Machine)
    (hw : waitLow s samples = some (t, rest)) :
    ∃ hs l, samples = hs ++ l :: rest ∧ (∀ x ∈ hs, x &&& s.self.m_bit ≠ 0)
      ∧ l &&& s.self.m_bit = 0 ∧ t = sample s l := by
  induction samples generalizing s with
  | nil => simp [waitLow] at hw
  | cons r tl ih =>
    rw [waitLow_cons] at hw
    by_cases hr : r &&& s.self.m_bit ≠ 0
    · rw [if_pos hr] at hw
      obtain ⟨hs, l, htl, hhs, hl, ht⟩ := ih (sample s r) hw
      refine ⟨r :: hs, l, by rw [htl, List.cons_append], ?_, hl, ?_⟩
      · intro x hx
        rcases List.mem_cons.mp hx with rfl | hx
        · exact hr
        · exact hhs x hx
      · rw [ht, sample_sample]
    · rw [if_neg hr] at hw
      simp only [Option.some.injEq, Prod.mk.injEq] at hw
      refine ⟨[], r, by rw [hw.2, List.nil_append], ?_, not_not.mp hr, hw.1.symm⟩
      intro x hx
      simp at hx

/-- When `waitHigh` returns, it has read a run of low samples and one high sample. -/
theorem waitHigh_some (s : Machine) (samples rest : List Nat) (t : Machine)
    (hw : waitHigh s samples = some (t, rest)) :
    ∃ ls h, samples = ls ++ h :: rest ∧ (∀ x ∈ ls, x &&& s.self.m_bit = 0)
      ∧ h &&& s.self.m_bit ≠ 0 ∧ t = sample s h := by
  induction samples generalizing s with
  | nil => simp [waitHigh] at hw
  | cons r tl ih =>
    rw [waitHigh_cons] at hw
    by_cases hr : r &&& s.self.m_bit = 0
    · rw [if_pos hr] at hw
      obtain ⟨ls, h, htl, hls, hh, ht⟩ := ih (sample s r) hw
      refine ⟨r :: ls, h, by rw [htl, List.cons_append], ?_, hh, ?_⟩
      · intro x hx
        rcases List.mem_cons.mp hx with rfl | hx
        · exact hr
        · exact hls x hx
      · rw [ht, sample_sample]
    · rw [if_neg hr] at hw
      simp only [Option.some.injEq, Prod.mk.injEq] at hw
      refine ⟨[], r, by rw [hw.2, List.nil_append], ?_, hr, hw.1.symm⟩
      intro x hx
      simp at hx

/-- While every sample reads high, `waitLow` keeps spinning. -/
theorem waitLow_all_high (s : Machine) (samples : List Nat)
    (hall : ∀ x ∈ samples, x &&& s.self.m_bit ≠ 0) : waitLow s samples = none := by
  cases hw : waitLow s samples with
  | none => rfl
  | some p =>
    obtain ⟨hs, l, hsamples, _, hl, _⟩ := waitLow_some s samples p.2 p.1 hw
    exact absurd hl (hall l (by rw [hsamples]; simp))

/-- While every sample reads low, `waitHigh` keeps spinning. -/
theorem waitHigh_all_low (s : Machine) (samples : List Nat)
    (hall : ∀ x ∈ samples, x &&& s.self.m_bit = 0) : waitHigh s samples = none := by
  cases hw : waitHigh s samples with
  | none => rfl
  | some p =>
    obtain ⟨ls, h, hsamples, _, hh, _⟩ := waitHigh_some s samples p.2 p.1 hw
    exact absurd (hall h (by rw [hsamples]; simp)) hh

/-- C7: polling a sequence of samples of the input register, `waitHigh()` returns
after the first poll, with every later sample unread, when the first sample has the
pin's bit set; and `waitLow()` returns after the first poll when the first sample
has the pin's bit clear. -/
theorem wait_returns_at_first_poll (s : Machine) (r : Nat) (rest : List Nat) :
    (r &&& s.self.m_bit ≠ 0 → waitHigh s (r :: rest) = some (sample s r, rest))
      ∧ (r &&& s.self.m_bit = 0 → waitLow s (r :: rest) = some (sample s r, rest)) := by
  constructor
  · intro h
    rw [waitHigh_cons, if_neg h]
  · intro h
    rw [waitLow_cons, if_neg (not_not.mpr h)]

end FastPin

namespace FastPin

theorem waitRisingEdge_append (s : Machine) (hs : List Nat) (l : Nat) (ls : List Nat) (h : Nat)
    (rest : List Nat) (hhs : ∀ x ∈ hs, x &&& s.self.m_bit ≠ 0) (hl : l &&& s.self.m_bit = 0)
    (hls : ∀ x ∈ ls, x &&& s.self.m_bit = 0) (hh : h &&& s.self.m_bit ≠ 0) :
    waitRisingEdge s (hs ++ l :: (ls ++ h :: rest)) = some (sample s h, rest) := by
  unfold waitRisingEdge
  rw [waitLow_append s hs l _ hhs hl]
  show waitHigh (sample s l) (ls ++ h :: rest) = some (sample s h, rest)
  rw [waitHigh_append (sample s l) ls h rest hls hh, sample_sample]

theorem waitFallingEdge_append (s : Machine) (ls : List Nat) (h : Nat) (hs : List Nat) (l : Nat)
    (rest : List Nat) (hls : ∀ x ∈ ls, x &&& s.self.m_bit = 0) (hh : h &&& s.self.m_bit ≠ 0)
    (hhs : ∀ x ∈ hs, x &&& s.self.m_bit ≠ 0) (hl : l &&& s.self.m_bit = 0) :
    waitFallingEdge s (ls ++ h :: (hs ++ l :: rest)) = some (sample s l, rest) := by
  unfold waitFallingEdge
  rw [waitHigh_append s ls h _ hls hh]
  show waitLow (sample s h) (hs ++ l :: rest) = some (sample s l, rest)
  rw [waitLow_append (sample s h) hs l rest hhs hl, sample_sample]

theorem waitRisingEdge_some (s : Machine) (samples rest : List Nat) (t : Machine)
    (hw : waitRisingEdge s samples = some (t, rest)) :
    ∃ hs l ls h, samples = hs ++ l :: (ls ++ h :: rest)
      ∧ (∀ x ∈ hs, x &&& s.self.m_bit ≠ 0) ∧ l &&& s.self.m_bit = 0
      ∧ (∀ x ∈ ls, x &&& s.self.m_bit = 0) ∧ h &&& s.self.m_bit ≠ 0 ∧ t = sample s h := by
  unfold waitRisingEdge at hw
  cases hlow : waitLow s samples with
  | none => simp [hlow] at hw
  | some p =>
    obtain ⟨s1, mid⟩ := p
    rw [hlow] at hw
    obtain ⟨hs, l, hsamples, hhs, hl, hs1⟩ := waitLow_some s samples mid s1 hlow
    obtain ⟨ls, h, hmid, hls, hh, ht⟩ := waitHigh_some s1 mid rest t hw
    rw [hs1] at hls hh ht
    refine ⟨hs, l, ls, h, by rw [hsamples, hmid], hhs, hl, hls, hh, ?_⟩
    rw [ht, sample_sample]

theorem waitFallingEdge_some (s : Machine) (samples rest : List Nat) (t : Machine)
    (hw : waitFallingEdge s samples = some (t, rest)) :
    ∃ ls h hs l, samples = ls ++ h :: (hs ++ l :: rest)
      ∧ (∀ x ∈ ls, x &&& s.self.m_bit = 0) ∧ h &&& s.self.m_bit ≠ 0
      ∧ (∀ x ∈ hs, x &&& s.self.m_bit ≠ 0) ∧ l &&& s.self.m_bit = 0 ∧ t = sample s l := by
  unfold waitFallingEdge at hw
  cases hhigh : waitHigh s samples with
  | none => simp [hhigh] at hw
  | some p =>
    obtain ⟨s1, mid⟩ := p
    rw [hhigh] at hw
    obtain ⟨ls, h, hsamples, hls, hh, hs1⟩ := waitHigh_some s samples mid s1 hhigh
    obtain ⟨hs, l, hmid, hhs, hl, ht⟩ := waitLow_some s1 mid rest t hw
    rw [hs1] at hhs hl ht
    refine ⟨ls, h, hs, l, by rw [hsamples, hmid], hls, hh, hhs, hl, ?_⟩
    rw [ht, sample_sample]

/-- C9: polling a sequence of samples of the input register, `waitRisingEdge()`
returns exactly at the first sample reading high that comes after the first sample
reading low: it returns with `rest` unread iff the samples are a run of high
samples, a low sample, a run of low samples, a high sample and then `rest`.  On
samples that all read high it does not return.  `waitFallingEdge()` is the mirror
image: it returns at the first low sample after the first high sample, and does
not return on samples that all read low. -/
theorem waitEdge_returns_iff (s : Machine) (samples rest : List Nat) (t : Machine) :
    (waitRisingEdge s samples = some (t, rest) ↔
        ∃ hs l ls h, samples = hs ++ l :: (ls ++ h :: rest)
          ∧ (∀ x ∈ hs, x &&& s.self.m_bit ≠ 0) ∧ l &&& s.self.m_bit = 0
          ∧ (∀ x ∈ ls, x &&& s.self.m_bit = 0) ∧ h &&& s.self.m_bit ≠ 0 ∧ t = sample s h)
      ∧ ((∀ x ∈ samples, x &&& s.self.m_bit ≠ 0) → waitRisingEdge s samples = none)
      ∧ (waitFallingEdge s samples = some (t, rest) ↔
        ∃ ls h hs l, samples = ls ++ h :: (hs ++ l :: rest)
          ∧ (∀ x ∈ ls, x &&& s.self.m_bit = 0) ∧ h &&& s.self.m_bit ≠ 0
          ∧ (∀ x ∈ hs, x &&& s.self.m_bit ≠ 0) ∧ l &&& s.self.m_bit = 0 ∧ t = sample s l)
      ∧ ((∀ x ∈ samples, x &&& s.self.m_bit = 0) → waitFallingEdge s samples = none) := by
  refine ⟨⟨waitRisingEdge_some s samples rest t, ?_⟩, ?_,
    ⟨waitFallingEdge_some s samples rest t, ?_⟩, ?_⟩
  · rintro ⟨hs, l, ls, h, rfl, hhs, hl, hls, hh, rfl⟩
    exact waitRisingEdge_append s hs l ls h rest hhs hl hls hh
  · intro hall
    unfold waitRisingEdge
    rw [waitLow_all_high s samples hall]
  · rintro ⟨ls, h, hs, l, rfl, hls, hh, hhs, hl, rfl⟩
    exact waitFallingEdge_append s ls h hs l rest hls hh hhs hl
  · intro hall
    unfold waitFallingEdge
    rw [waitHigh_all_low s samples hall]

end FastPin

/-! ## The theorems at the sample machine -/

/-- Instance of C1: writing the level 7, which is neither `LOW` nor `HIGH`, to
the output register `0x5A` through the mask `0x20` leaves `0x7A`. -/
theorem write_refines_digitalWrite_witness :
    sampleMachine.mem sampleMachine.self.m_out < 256
      ∧ sampleMachine.self.m_bit < 256
      ∧ (FastPin.write samplePlatform 7 sampleMachine).mem 0x25 = 0x7A :=
  ⟨by decide, by decide,
    (FastPin.write_refines_digitalWrite samplePlatform sampleMachine 7
      (by decide) (by decide)).1⟩

/-- Instance of C2: the input register `0xA5` read through the mask `0x20`
gives `HIGH`. -/
theorem read_level_witness :
    samplePlatform.HIGH ≠ samplePlatform.LOW
      ∧ (FastPin.read samplePlatform sampleMachine).1 = samplePlatform.HIGH :=
  ⟨by decide, (FastPin.read_level samplePlatform sampleMachine (by decide)).1.mpr (by decide)⟩

/-- Instance of C4: the round trip on the sample machine, mask `2 ^ 5`. -/
theorem write_read_roundtrip_witness :
    5 < 8 ∧ sampleMachine.self.m_bit = 2 ^ 5 ∧ samplePlatform.HIGH ≠ samplePlatform.LOW
      ∧ (FastPin.read samplePlatform
          (FastPin.loopBack (FastPin.write samplePlatform samplePlatform.HIGH sampleMachine))).1
        = samplePlatform.HIGH
      ∧ (FastPin.read samplePlatform
          (FastPin.loopBack (FastPin.write samplePlatform samplePlatform.LOW sampleMachine))).1
        = samplePlatform.LOW :=
  have h := FastPin.write_read_roundtrip samplePlatform sampleMachine 5
    (by decide) (by decide) (by decide)
  ⟨by decide, by decide, by decide, h.1, h.2.1⟩

/-- Instance of C5: the pulses on the sample machine, mask `2 ^ 5`. -/
theorem pulse_final_state_witness :
    5 < 8 ∧ sampleMachine.self.m_bit = 2 ^ 5
      ∧ ((FastPin.pulseHigh sampleMachine).mem sampleMachine.self.m_out).testBit 5 = false
      ∧ ((FastPin.pulseLow sampleMachine).mem sampleMachine.self.m_out).testBit 5 = true :=
  have h := FastPin.pulse_final_state sampleMachine 5 (by decide) (by decide)
  ⟨by decide, by decide, h.2.2.1, h.2.2.2.1⟩

/-- Instance of C6: pin 20 of the sample platform is on no port, and
construction stops; pin 13 is on port 2, and construction yields `samplePin`. -/
theorem construct_halts_iff_witness :
    samplePlatform.digitalPinToPort 20 < 256 ∧ samplePlatform.digitalPinToBitMask 20 < 256
      ∧ samplePlatform.digitalPinToPort 13 < 256 ∧ samplePlatform.digitalPinToBitMask 13 < 256
      ∧ (FastPin.construct samplePlatform 20).handle = none
      ∧ (FastPin.construct samplePlatform 13).handle = some samplePin :=
  ⟨by decide, by decide, by decide, by decide,
    (FastPin.construct_halts_iff samplePlatform 20 1 1 (by decide) (by decide)).1.mpr (by decide),
    (FastPin.construct_halts_iff samplePlatform 13 1 1 (by decide) (by decide)).2.1 (by decide)⟩

/-- Instance of C7: with the mask `0x20`, a first sample `0x20` ends `waitHigh`
and a first sample `0x00` ends `waitLow`, the later samples unread. -/
theorem wait_returns_at_first_poll_witness :
    0x20 &&& sampleMachine.self.m_bit ≠ 0 ∧ 0x00 &&& sampleMachine.self.m_bit = 0
      ∧ FastPin.waitHigh sampleMachine [0x20, 0, 0]
          = some (FastPin.sample sampleMachine 0x20, [0, 0])
      ∧ FastPin.waitLow sampleMachine [0x00, 0xFF, 0xFF]
          = some (FastPin.sample sampleMachine 0x00, [0xFF, 0xFF]) :=
  ⟨by decide, by decide,
    (FastPin.wait_returns_at_first_poll sampleMachine 0x20 [0, 0]).1 (by decide),
    (FastPin.wait_returns_at_first_poll sampleMachine 0x00 [0xFF, 0xFF]).2 (by decide)⟩

/-- Instance of C8: pin 13 of the sample platform sits at position 5 of its
port, and the constructed object has the mask `2 ^ 5`. -/
theorem construct_bitMask_one_bit_witness :
    samplePlatform.digitalPinToPort 13 < 256
      ∧ samplePlatform.digitalPinToPort 13 ≠ samplePlatform.NOT_A_PIN
      ∧ samplePlatform.bitMaskAt 13 5
      ∧ ∃ x : FastPin, (FastPin.construct samplePlatform 13).handle = some x
          ∧ x.m_bit = 2 ^ 5 ∧ ∀ i, x.m_bit.testBit i = decide (i = 5) :=
  ⟨by decide, by decide, by decide,
    FastPin.construct_bitMask_one_bit samplePlatform 13 5 (by decide) (by decide) (by decide)⟩

/-- Instance of C9: on samples that stay high `waitRisingEdge` does not return,
and on high, high, low, low, high it returns at the fifth sample. -/
theorem waitEdge_returns_iff_witness :
    (∀ x ∈ [0xFF, 0x20, 0x21], x &&& sampleMachine.self.m_bit ≠ 0)
      ∧ FastPin.waitRisingEdge sampleMachine [0xFF, 0x20, 0x21] = none
      ∧ FastPin.waitRisingEdge sampleMachine [0xFF, 0x20, 0x00, 0x1F, 0x20, 7, 8]
          = some (FastPin.sample sampleMachine 0x20, [7, 8]) :=
  ⟨by decide,
    (FastPin.waitEdge_returns_iff sampleMachine [0xFF, 0x20, 0x21] []
      sampleMachine).2.1 (by decide),
    (FastPin.waitEdge_returns_iff sampleMachine [0xFF, 0x20, 0x00, 0x1F, 0x20, 7, 8] [7, 8]
      (FastPin.sample sampleMachine 0x20)).1.mpr
      ⟨[0xFF, 0x20], 0x00, [0x1F], 0x20, rfl, by decide, by decide, by decide, by decide, rfl⟩⟩

/-- Instance of C10: on pin 13 of the sample platform the three-argument
constructor with mode `OUTPUT` calls `pinMode` and then `digitalWrite`, and with
mode 0 it calls `pinMode` only. -/
theorem constructModeValue_calls_witness :
    samplePlatform.digitalPinToPort 13 < 256
      ∧ samplePlatform.digitalPinToPort 13 ≠ samplePlatform.NOT_A_PIN
      ∧ (FastPin.constructModeValue samplePlatform 13 1 1).calls
          = [FastPin.Call.pinMode 13 1, FastPin.Call.digitalWrite 13 1]
      ∧ (FastPin.constructModeValue samplePlatform 13 0 1).calls = [FastPin.Call.pinMode 13 0] :=
  ⟨by decide, by decide,
    (FastPin.constructModeValue_calls samplePlatform 13 1 1 (by decide) (by decide)).2.2.2.2.1
      (by decide),
    ((FastPin.constructModeValue_calls samplePlatform 13 0 1 (by decide) (by decide)).2.2.2.2.2.1
      (by decide)).1⟩
